import Mathlib

/-!
Verification of the `awsconfigfile` package (Common Fate AWS config file
generator) against its specification.

The development shallowly embeds the Go source:
  * `awscfg.go` : `SSOProfile`, `SSOProfile.ToIni`, `Merge`,
    `credentialProcessProfile`, `regularProfile`, `normalizeAccountName`;
  * `generator.go` : `Generator.Generate`, the illegal-character checks and
    the two regular expressions used by them.

An ini document (the `gopkg.in/ini.v1` `*ini.File` used by the package) is
modelled as an ordered list of named sections, each section an ordered list
of key/value pairs.  The ini library keeps section names unique (sections
live in a map keyed by name); theorems that depend on this carry a
`NamesUnique` hypothesis.  The Go `text/template` engine is kept abstract:
`Merge` is parameterised by a `parse` function (returning `none` on a parse
error) and an `exec` function (returning `none` on an execution error); the
spec requires templates to be pure functions of the profile, which the
embedding realises by construction.
-/

namespace AwsCfg

/-! ### Go byte-lexicographic string order

Go compares strings byte-wise over their UTF-8 encoding.  UTF-8 is
order-preserving, so this coincides with lexicographic comparison of the
code-point sequences, which is what `strLtChars` computes. -/

/-- Lexicographic strict order on character lists by code point; models the
Go `<` operator on strings (byte-lexicographic over UTF-8). -/
def strLtChars : List Char → List Char → Bool
  | _, [] => false
  | [], _ :: _ => true
  | c :: cs, d :: ds =>
    if c.toNat < d.toNat then true
    else if d.toNat < c.toNat then false
    else strLtChars cs ds

/-- Go string `<`. -/
def goStrLt (a b : String) : Bool := strLtChars a.data b.data

/-- Go string `≤` (total order complement of `goStrLt`). -/
def goStrLe (a b : String) : Bool := !(goStrLt b a)

/-! ### Data model (`awscfg.go`) -/

/-- The `SSOProfile` struct of `awscfg.go`. -/
structure SSOProfile where
  ssoStartURL : String
  ssoRegion : String
  region : String
  accountID : String
  accountName : String
  roleName : String
  commonFateURL : String
  generatedFrom : String
deriving Repr, DecidableEq

/-- One section of an ini document: a name and an ordered key/value list. -/
structure Section where
  name : String
  keys : List (String × String)
deriving Repr, DecidableEq

/-- An ini document (`*ini.File`): an ordered list of sections. -/
abbrev IniFile := List Section

/-- The ini library keeps section names unique (sections are stored in a
map keyed by name); this is the corresponding invariant on the model. -/
def NamesUnique (doc : IniFile) : Prop := (doc.map Section.name).Nodup

instance (doc : IniFile) : Decidable (NamesUnique doc) :=
  inferInstanceAs (Decidable (doc.map Section.name).Nodup)

/-- Section `HasKey`. -/
def hasKey (s : Section) (k : String) : Bool := s.keys.any (fun kv => kv.fst == k)

/-- Section `Key(k).String()`: value of the first binding of `k`, `""` when
absent (the callers in the source guard reads with `HasKey`). -/
def keyValue (s : Section) (k : String) : String :=
  ((s.keys.find? (fun kv => kv.fst == k)).map Prod.snd).getD ""

/-- An `ini.File`'s `DeleteSection`: removes the first section with the
given name (at most one exists under `NamesUnique`). -/
def deleteSection (doc : IniFile) (n : String) : IniFile :=
  match doc with
  | [] => []
  | s :: rest => if s.name == n then rest else s :: deleteSection rest n

/-- The `normalizeAccountName` function: `strings.ReplaceAll(accountName, " ", "-")`.
Because the pattern is the single character `" "`, replacing all its
occurrences is exactly a character map. -/
def normalizeAccountName (accountName : String) : String :=
  ⟨accountName.data.map (fun c => if c = ' ' then '-' else c)⟩

/-- The sort key of `Merge`'s `sort.SliceStable` call:
`AccountName + "/" + RoleName`. -/
def combinedName (p : SSOProfile) : String := p.accountName ++ "/" ++ p.roleName

/-- The `credential_process` command string built by `SSOProfile.ToIni` when
`noCredentialProcess` is false. -/
def credProcessValue (p : SSOProfile) (profileName : String) : String :=
  let base := "granted credential-process --profile " ++ profileName
  if p.commonFateURL != "" then base ++ " --url " ++ p.commonFateURL else base

/-- The ordered key/value list that `section.ReflectFrom(p.ToIni(...))`
writes.  `noCredentialProcess = true` reflects the `regularProfile` struct,
`false` the `credentialProcessProfile` struct; fields are written in struct
order, and `region` carries `omitempty` so it is skipped when empty. -/
def SSOProfile.toIni (p : SSOProfile) (profileName : String)
    (noCredentialProcess : Bool) : List (String × String) :=
  if noCredentialProcess then
    [("sso_start_url", p.ssoStartURL),
     ("sso_region", p.ssoRegion),
     ("sso_account_id", p.accountID),
     ("common_fate_generated_from", p.generatedFrom),
     ("sso_role_name", p.roleName)] ++
    (if p.region != "" then [("region", p.region)] else [])
  else
    [("granted_sso_start_url", p.ssoStartURL),
     ("granted_sso_region", p.ssoRegion),
     ("granted_sso_account_id", p.accountID),
     ("granted_sso_role_name", p.roleName),
     ("common_fate_generated_from", p.generatedFrom),
     ("credential_process", credProcessValue p profileName)] ++
    (if p.region != "" then [("region", p.region)] else [])

/-- Errors surfaced by the embedded operations. -/
inductive GoError where
  | templateParseError
  | templateExecError
  | illegalPrefixError
  | illegalTemplateError
  | sourceError (msg : String)
deriving Repr, DecidableEq

/-- The `MergeOpts` struct (`pfx` is the Go `Prefix` field). -/
structure MergeOpts where
  config : IniFile
  pfx : String
  profiles : List SSOProfile
  sectionNameTemplate : String
  noCredentialProcess : Bool
  pruneStartURLs : List String
deriving Repr, DecidableEq

/-- Result of a `Merge` call.  Go mutates in place; the model returns the
final document state together with the returned error (`doc` is the
partially mutated document when `err` is set) and the caller-visible state
of the profile slice (`sort.SliceStable` reorders the caller's backing
array in place). -/
structure MergeResult where
  doc : IniFile
  err : Option GoError
  profilesAfter : List SSOProfile
deriving Repr, DecidableEq

/-! ### Merge (`awscfg.go`) -/

/-- The relation passed to `sort.SliceStable` in `Merge`, as a non-strict
total order: profile `p` may stay before `q` iff `combinedName p ≤ combinedName q`
in Go string order. -/
def profileLe (p q : SSOProfile) : Prop :=
  goStrLe (combinedName p) (combinedName q) = true

instance : DecidableRel profileLe := fun _ _ => instDecidableEqBool _ _

/-- Model of `sort.SliceStable(opts.Profiles, less)` with
`less i j = combinedName i < combinedName j`.  A stable sort for a total
preorder is unique as a function, and `List.insertionSort` is stable, so it
has the same graph as the Go call. -/
def sortProfiles (l : List SSOProfile) : List SSOProfile :=
  l.insertionSort profileLe

/-- The in-band marker key that identifies sections written by this
engine. -/
def markerKey : String := "common_fate_generated_from"

/-- The `startURL` local of `Merge`'s pruning pass: value of
`granted_sso_start_url` if that key exists, else of `sso_start_url` if that
key exists, else `""`. -/
def sectionStartURL (sec : Section) : String :=
  if hasKey sec "granted_sso_start_url" then keyValue sec "granted_sso_start_url"
  else if hasKey sec "sso_start_url" then keyValue sec "sso_start_url"
  else ""

/-- Inner loop of the pruning pass: for one snapshot section `sec`, walk the
prune start URLs and delete `sec`'s name from the document whenever `sec`
carries the marker key and its recorded start URL equals the prune URL. -/
def pruneStep (doc : IniFile) (sec : Section) (urls : List String) : IniFile :=
  urls.foldl
    (fun d pruneURL =>
      if hasKey sec markerKey && sectionStartURL sec == pruneURL
      then deleteSection d sec.name else d)
    doc

/-- The pruning pass of `Merge`: iterate over a snapshot of the document's
sections (`opts.Config.Sections()` is evaluated once), deleting from the
live document. -/
def prunePass (doc : IniFile) (urls : List String) : IniFile :=
  doc.foldl (fun d sec => pruneStep d sec urls) doc

/-- The per-iteration copy of the insertion loop:
`ssoProfile.AccountName = normalizeAccountName(ssoProfile.AccountName)`
applied to the `range` copy of the profile (the caller's slice element is
untouched). -/
def normalizeProfile (p : SSOProfile) : SSOProfile :=
  { p with accountName := normalizeAccountName p.accountName }

/-- Loop body state of `Merge`'s insertion pass.  For each profile: copy it
with the account name normalized, render the section-name fragment, build
`profileName` and `sectionName`, delete any existing section of that name
and append a fresh section populated by `ReflectFrom`.  (`NewSection` can
only fail on an empty name, and `sectionName` always starts with
`"profile "`, so that error path is dead; `ReflectFrom` cannot fail on
these fixed structs.)  A template execution error aborts the loop, leaving
the document partially mutated. -/
def insertLoop {τ : Type} (exec : τ → SSOProfile → Option String) (t : τ)
    (pfx : String) (noCredentialProcess : Bool) :
    IniFile → List SSOProfile → IniFile × Option GoError
  | doc, [] => (doc, none)
  | doc, p :: rest =>
    let p' := normalizeProfile p
    match exec t p' with
    | none => (doc, some .templateExecError)
    | some frag =>
      let profileName := pfx ++ frag
      let sectionName := "profile " ++ profileName
      insertLoop exec t pfx noCredentialProcess
        (deleteSection doc sectionName ++
          [⟨sectionName, p'.toIni profileName noCredentialProcess⟩]) rest

/-- The default section-name template of `Merge` and `Generate`. -/
def DefaultProfileNameTemplate : String :=
  "\x7b\x7b .AccountName \x7d\x7d/\x7b\x7b .RoleName \x7d\x7d"

/-- The template-defaulting step shared by `Merge` and `Generate`: an empty
template string is replaced by the default template. -/
def effectiveTemplate (tmpl : String) : String :=
  if tmpl = "" then DefaultProfileNameTemplate else tmpl

/-- The `Merge` function of `awscfg.go`, parameterised by the template
engine: `parse` models `template.New("").Funcs(sprig.TxtFuncMap()).Parse`
(`none` on parse error) and `exec` models `Execute` on a parsed template
(`none` on execution error).  Steps, in source order: default the template
string, stably sort the profiles by combined name, parse the template,
prune, insert. -/
def Merge {τ : Type} (parse : String → Option τ)
    (exec : τ → SSOProfile → Option String) (opts : MergeOpts) : MergeResult :=
  let tmplStr := effectiveTemplate opts.sectionNameTemplate
  let sorted := sortProfiles opts.profiles
  match parse tmplStr with
  | none => ⟨opts.config, some .templateParseError, sorted⟩
  | some t =>
    let pruned := prunePass opts.config opts.pruneStartURLs
    let r := insertLoop exec t opts.pfx opts.noCredentialProcess pruned sorted
    ⟨r.fst, r.snd, sorted⟩

/-! ### Generator (`generator.go`)

The two package-level regular expressions are embedded as direct scanners
over character lists:

  * `matchGoTemplateSection = \x7b\x7b[\s\S]*?\x7d\x7d` — used with
    `ReplaceAllString(_, "")` to drop the embedded template regions
    (leftmost, non-greedy, non-overlapping matches);
  * `profileSectionIllegalCharsRegex =
    (?s)((?:^|[^\x7b])[\s\][;'"]|[\][;'"][\s]*(?:$|[^\x7d]))` — an
    alternation of two patterns, each modelled by its own scanner.
-/

/-- Character class `[\][;'"]` of `profileSectionIllegalCharsRegex`. -/
def isIllegalTemplateChar (c : Char) : Bool :=
  c = ']' || c = '[' || c = ';' || c = '\x27' || c = '"'

/-- RE2's `\s` class: tab, newline, form feed, carriage return, space. -/
def isRegexSpace (c : Char) : Bool :=
  c = '\x09' || c = '\x0a' || c = '\x0c' || c = '\x0d' || c = ' '

/-- First alternative `(?:^|[^\x7b])[\s\][;'"]`: an illegal character or
whitespace that sits at the start of the text or after a character other
than `\x7b`.  `prev` is the character before the current position (`none`
at the start). -/
def scanAlt1 : Option Char → List Char → Bool
  | _, [] => false
  | prev, c :: rest =>
    ((isIllegalTemplateChar c || isRegexSpace c) && !(prev == some '\x7b'))
      || scanAlt1 (some c) rest

/-- Tail condition `[\s]*(?:$|[^\x7d])` of the second alternative: after
consuming any number of whitespace characters, the text ends or continues
with a character other than `\x7d`. -/
def wsThenNotClose : List Char → Bool
  | [] => true
  | c :: rest => !(c == '\x7d') || (isRegexSpace c && wsThenNotClose rest)

/-- Second alternative `[\][;'"][\s]*(?:$|[^\x7d])`. -/
def scanAlt2 : List Char → Bool
  | [] => false
  | c :: rest => (isIllegalTemplateChar c && wsThenNotClose rest) || scanAlt2 rest

/-- `profileSectionIllegalCharsRegex.MatchString`. -/
def illegalCharsRegexMatches (cs : List Char) : Bool :=
  scanAlt1 none cs || scanAlt2 cs

/-- One-pass scanner realising
`matchGoTemplateSection.ReplaceAllString(s, "")`: remove every leftmost
non-greedy `\x7b\x7b ... \x7d\x7d` region.  The second argument is `none`
outside a region and `some acc` inside one, where `acc` holds the region's
characters so far in reverse; a region still open at the end of the input
has no closing `\x7d\x7d` after its opener, so the regex matches nothing
there and the consumed characters are restored verbatim. -/
def stripAux : List Char → Option (List Char) → List Char
  | [], none => []
  | [], some acc => acc.reverse
  | [c], some acc => (c :: acc).reverse
  | [c], none => [c]
  | c :: d :: rest, some acc =>
    if c = '\x7d' && d = '\x7d' then stripAux rest none
    else stripAux (d :: rest) (some (c :: acc))
  | c :: d :: rest, none =>
    if c = '\x7b' && d = '\x7b' then stripAux rest (some ['\x7b', '\x7b'])
    else c :: stripAux (d :: rest) none

/-- `matchGoTemplateSection.ReplaceAllString(s, "")` on a character list. -/
def stripTemplates (cs : List Char) : List Char := stripAux cs none

/-- The character set of the `profileSectionIllegalChars` constant
(the raw Go string `" \][;'\""`, whose characters are space, backslash,
`]`, `[`, `;`, `'` and `"`). -/
def isIllegalPrefixChar (c : Char) : Bool :=
  c = ' ' || c = '\\' || c = ']' || c = '[' || c = ';' || c = '\x27' || c = '"'

/-- `strings.ContainsAny(s, profileSectionIllegalChars)`. -/
def containsIllegalPrefixChar (s : String) : Bool := s.data.any isIllegalPrefixChar

/-- The illegal-character pre-check `Generate` applies to a non-default
profile-name template: strip the embedded template regions, then match the
illegal-characters regex on what remains. -/
def templateRejected (tmpl : String) : Bool :=
  illegalCharsRegexMatches (stripTemplates tmpl.data)

/-- The fields of the `Generator` struct used by `Generate` (the registered
sources are passed to the model separately, as their results; `pfx` is the
Go `Prefix` field). -/
structure GeneratorOpts where
  config : IniFile
  noCredentialProcess : Bool
  profileNameTemplate : String
  pfx : String
  pruneStartURLs : List String
deriving Repr, DecidableEq

/-- Fan-out/fan-in over the sources, modelled on each source's `GetProfiles`
result.  The `errgroup` makes all goroutines run and `Wait` returns the
first error; which failing source's error wins, and the append order of the
collected profiles, are schedule-dependent in Go and determinized here to
source-list order.  (The claims proved below depend only on facts stable
under this choice: an error is always one returned by some failing
source.) -/
def collectSources : List (Except String (List SSOProfile)) →
    Except String (List SSOProfile)
  | [] => .ok []
  | .error e :: _ => .error e
  | .ok ps :: rest =>
    match collectSources rest with
    | .error e => .error e
    | .ok acc => .ok (ps ++ acc)

/-- The `Generator.Generate` function of `generator.go`, with the template
engine abstract as in `Merge` and the sources given by their `GetProfiles`
results.  Steps, in source order: reject an illegal prefix, default the
template, pre-check a non-default template, collect the sources
(fail-fast), then delegate to `Merge`.  The returned document is the final
state of `g.config` (untouched on every error path before the `Merge`
call). -/
def Generate {τ : Type} (parse : String → Option τ)
    (exec : τ → SSOProfile → Option String) (g : GeneratorOpts)
    (sources : List (Except String (List SSOProfile))) :
    IniFile × Option GoError :=
  if containsIllegalPrefixChar g.pfx then (g.config, some .illegalPrefixError)
  else
    let tmpl := effectiveTemplate g.profileNameTemplate
    if tmpl != DefaultProfileNameTemplate && templateRejected tmpl then
      (g.config, some .illegalTemplateError)
    else
      match collectSources sources with
      | .error e => (g.config, some (.sourceError e))
      | .ok profiles =>
        let r := Merge parse exec
          { config := g.config, pfx := g.pfx, profiles := profiles,
            sectionNameTemplate := tmpl,
            noCredentialProcess := g.noCredentialProcess,
            pruneStartURLs := g.pruneStartURLs }
        (r.doc, r.err)

/-! ### Derived definitions used by the lemmas -/

/-- The condition under which the pruning pass deletes the name of a
snapshot section: the section carries the marker key and its recorded
start URL is one of the prune start URLs. -/
def pruneMatch (sec : Section) (urls : List String) : Bool :=
  hasKey sec markerKey && urls.any (fun u => sectionStartURL sec == u)

/-- Rendered section-name fragment of a profile (total form; meaningful
where `exec` succeeds). -/
def fragOf {τ : Type} (exec : τ → SSOProfile → Option String) (t : τ)
    (p : SSOProfile) : String :=
  (exec t (normalizeProfile p)).getD ""

/-- Final section name written for a profile:
`"profile " + prefix + fragment`. -/
def nmOf {τ : Type} (exec : τ → SSOProfile → Option String) (t : τ)
    (pfx : String) (p : SSOProfile) : String :=
  "profile " ++ (pfx ++ fragOf exec t p)

/-- The section written for a profile. -/
def secOf {τ : Type} (exec : τ → SSOProfile → Option String) (t : τ)
    (pfx : String) (noCredentialProcess : Bool) (p : SSOProfile) : Section :=
  ⟨nmOf exec t pfx p,
   (normalizeProfile p).toIni (pfx ++ fragOf exec t p) noCredentialProcess⟩

/-- One successful iteration of the insertion loop: delete any section with
the rendered name, then append the freshly populated section. -/
def stepTot {τ : Type} (exec : τ → SSOProfile → Option String) (t : τ)
    (pfx : String) (noCredentialProcess : Bool) (d : IniFile)
    (p : SSOProfile) : IniFile :=
  deleteSection d (nmOf exec t pfx p) ++ [secOf exec t pfx noCredentialProcess p]

/-- Ascending order on the pair (account display name, role name), each
component in Go string order — the ordering the specification names. -/
def pairLt (p q : SSOProfile) : Bool :=
  goStrLt p.accountName q.accountName ||
    (p.accountName == q.accountName && goStrLt p.roleName q.roleName)

/-! ### Concrete template-engine instances for witnesses

`Merge` and `Generate` are parameterised by the template engine; the
following instances model the behaviour of Go `text/template` on the
specific template strings used by the concrete witness inputs. -/

/-- Parse model for template strings that Go `text/template` parses
successfully (any literal text without malformed actions, in particular
the default template and `"\x7b]\x7d"`). -/
def okParse : String → Option Unit := fun _ => some ()

/-- Parse model for a failing `template.Parse` call. -/
def failParse : String → Option Unit := fun _ => none

/-- Execution model of the parsed default template
`\x7b\x7b .AccountName \x7d\x7d/\x7b\x7b .RoleName \x7d\x7d`: substitutes
the two fields, never fails. -/
def defaultTemplateExec : Unit → SSOProfile → Option String :=
  fun _ p => some (p.accountName ++ "/" ++ p.roleName)

/-- Execution model of the parsed template `"\x7b]\x7d"`: it contains no
actions, so it renders its literal text on every input. -/
def literalBracketExec : Unit → SSOProfile → Option String :=
  fun _ _ => some "\x7b]\x7d"

/-! ### Concrete inputs for witnesses and counterexamples -/

/-- The profile of the `"ok"` test case of `awscfg_test.go`. -/
def testProfile : SSOProfile :=
  { ssoStartURL := "https://example.com", ssoRegion := "ap-southeast-2",
    region := "", accountID := "123456789012", accountName := "testing",
    roleName := "DevRole", commonFateURL := "https://commonfate.example.com",
    generatedFrom := "aws-sso" }

/-- Merge options of the `"ok"` test case, with pruning of the profile's
own start URL switched on. -/
def testMergeOpts : MergeOpts :=
  { config := [⟨"profile example", [("test", "1")]⟩], pfx := "",
    profiles := [testProfile], sectionNameTemplate := "",
    noCredentialProcess := false,
    pruneStartURLs := ["https://example.com"] }

/-- A profile that is smaller in pair order than `pairGreaterProfile` but
whose combined name `a/!b` is larger in Go string order than `a!/b`
(because `!` sorts below `/`). -/
def pairLesserProfile : SSOProfile :=
  { testProfile with accountName := "a", roleName := "!b" }

/-- See `pairLesserProfile`. -/
def pairGreaterProfile : SSOProfile :=
  { testProfile with accountName := "a!", roleName := "b" }

/-- Merge options feeding the two pair-order probe profiles, supplied in
pair order. -/
def pairOrderOpts : MergeOpts :=
  { config := [], pfx := "", profiles := [pairLesserProfile, pairGreaterProfile],
    sectionNameTemplate := "", noCredentialProcess := false,
    pruneStartURLs := [] }

/-- Two-profile list supplied in descending combined-name order. -/
def unsortedOpts : MergeOpts :=
  { config := [], pfx := "",
    profiles := [{ testProfile with accountName := "bbb" },
                 { testProfile with accountName := "aaa" }],
    sectionNameTemplate := "", noCredentialProcess := false,
    pruneStartURLs := [] }

/-- A document exercising every pruning case: a marked section with a
matching URL under each key convention (one with an empty marker value),
an unmarked section with a matching URL, and a marked section with a
non-matching URL. -/
def pruneProbeDoc : IniFile :=
  [⟨"profile a", [("common_fate_generated_from", "aws-sso"),
                  ("granted_sso_start_url", "u")]⟩,
   ⟨"profile b", [("granted_sso_start_url", "u")]⟩,
   ⟨"profile c", [("common_fate_generated_from", ""), ("sso_start_url", "u")]⟩,
   ⟨"profile d", [("common_fate_generated_from", "x"), ("sso_start_url", "v")]⟩]

/-- Generator options of the `"ok"` test case of `generator_test.go`. -/
def testGenOpts : GeneratorOpts :=
  { config := [⟨"profile example", [("test", "1")]⟩],
    noCredentialProcess := false, profileNameTemplate := "", pfx := "",
    pruneStartURLs := [] }

/-- Generator options carrying the brace-guarded illegal-character
template `\x7b]\x7d`. -/
def bracketTemplateGenOpts : GeneratorOpts :=
  { testGenOpts with profileNameTemplate := "\x7b]\x7d" }

/-- Generator options carrying a template with an unguarded space. -/
def spaceTemplateGenOpts : GeneratorOpts :=
  { testGenOpts with profileNameTemplate := "a b" }

/-! ### Order lemmas for the sort relation -/

theorem strLtChars_asymm : ∀ {a b : List Char},
    strLtChars a b = true → strLtChars b a = false
  | _ :: _, [], h => by simp [strLtChars] at h
  | [], [], h => by simp [strLtChars] at h
  | [], _ :: _, _ => by simp [strLtChars]
  | c :: cs, d :: ds, h => by
    simp only [strLtChars] at h ⊢
    by_cases h1 : c.toNat < d.toNat
    · rw [if_neg (by omega), if_pos h1]
    · rw [if_neg h1] at h
      by_cases h2 : d.toNat < c.toNat
      · rw [if_pos h2] at h
        exact absurd h (by simp)
      · rw [if_neg h2] at h
        rw [if_neg h2, if_neg h1]
        exact strLtChars_asymm h

theorem strLtChars_resolve : ∀ {a c : List Char} (b : List Char),
    strLtChars c a = true → strLtChars c b = true ∨ strLtChars b a = true
  | [], _, _, h => by simp [strLtChars] at h
  | _ :: _, [], b, _ => by
    cases b with
    | nil => right; simp [strLtChars]
    | cons x xs => left; simp [strLtChars]
  | z :: zs, x :: xs, [], _ => by right; simp [strLtChars]
  | z :: zs, x :: xs, y :: ys, h => by
    simp only [strLtChars] at h ⊢
    by_cases hxz : x.toNat < z.toNat
    · by_cases hxy : x.toNat < y.toNat
      · left; rw [if_pos hxy]
      · right; rw [if_pos (by omega)]
    · rw [if_neg hxz] at h
      by_cases hzx : z.toNat < x.toNat
      · rw [if_pos hzx] at h
        exact absurd h (by simp)
      · rw [if_neg hzx] at h
        by_cases hxy : x.toNat < y.toNat
        · left; rw [if_pos hxy]
        · by_cases hyx : y.toNat < x.toNat
          · right; rw [if_pos (by omega)]
          · rcases strLtChars_resolve ys h with h1 | h1
            · left; rw [if_neg hxy, if_neg hyx, h1]
            · right; rw [if_neg (by omega), if_neg (by omega), h1]

instance : IsTotal SSOProfile profileLe where
  total p q := by
    unfold profileLe goStrLe goStrLt
    by_cases h : strLtChars (combinedName q).data (combinedName p).data = true
    · right
      rw [strLtChars_asymm h]
      rfl
    · left
      rw [Bool.not_eq_true] at h
      rw [h]
      rfl

instance : IsTrans SSOProfile profileLe where
  trans p q r hpq hqr := by
    unfold profileLe goStrLe goStrLt at hpq hqr ⊢
    rw [Bool.not_eq_true'] at hpq hqr ⊢
    by_contra hc
    rw [Bool.not_eq_false] at hc
    rcases strLtChars_resolve (combinedName q).data hc with h | h
    · rw [hqr] at h; cases h
    · rw [hpq] at h; cases h

/-! ### Document lemmas -/

theorem deleteSection_sublist (doc : IniFile) (n : String) :
    (deleteSection doc n).Sublist doc := by
  induction doc with
  | nil => simp [deleteSection]
  | cons s rest ih =>
    rw [deleteSection]
    by_cases h : (s.name == n) = true
    · rw [if_pos h]
      exact List.sublist_cons_self s rest
    · rw [if_neg h]
      exact ih.cons₂ s

theorem namesUnique_sublist {d doc : IniFile} (hs : d.Sublist doc)
    (h : NamesUnique doc) : NamesUnique d :=
  List.Nodup.sublist (hs.map Section.name) h

theorem namesUnique_deleteSection {doc : IniFile} (h : NamesUnique doc)
    (n : String) : NamesUnique (deleteSection doc n) :=
  namesUnique_sublist (deleteSection_sublist doc n) h

theorem namesUnique_filter {doc : IniFile} (h : NamesUnique doc)
    (p : Section → Bool) : NamesUnique (doc.filter p) :=
  namesUnique_sublist (List.filter_sublist doc) h

theorem deleteSection_of_not_mem {doc : IniFile} {n : String}
    (h : n ∉ doc.map Section.name) : deleteSection doc n = doc := by
  induction doc with
  | nil => rfl
  | cons s rest ih =>
    simp only [List.map_cons, List.mem_cons] at h
    push_neg at h
    rw [deleteSection, if_neg (by simp [h.1.symm]), ih h.2]

theorem deleteSection_eq_filter {doc : IniFile} (h : NamesUnique doc)
    (n : String) : deleteSection doc n = doc.filter (fun s => !(s.name == n)) := by
  induction doc with
  | nil => rfl
  | cons s rest ih =>
    have hrest : NamesUnique rest := by
      simpa [NamesUnique] using (List.nodup_cons.mp h).2
    rw [deleteSection, List.filter_cons]
    by_cases hn : (s.name == n) = true
    · rw [if_pos hn]
      have hns : n ∉ rest.map Section.name :=
        beq_iff_eq.mp hn ▸ (List.nodup_cons.mp h).1
      rw [if_neg (by simp [hn])]
      exact (List.filter_eq_self.mpr (fun a ha => by
        simp only [Bool.not_eq_true', beq_eq_false_iff_ne, ne_eq]
        intro he
        exact hns (he ▸ List.mem_map_of_mem Section.name ha))).symm
    · rw [if_neg hn, if_pos (by simp [Bool.not_eq_true'] at hn ⊢; exact hn), ih hrest]

theorem mem_names_of_section_mem {doc : IniFile} {s : Section}
    (h : s ∈ doc) : s.name ∈ doc.map Section.name :=
  List.mem_map_of_mem Section.name h

theorem name_inj_of_namesUnique {doc : IniFile} (h : NamesUnique doc)
    {s t : Section} (hs : s ∈ doc) (ht : t ∈ doc) (he : s.name = t.name) :
    s = t :=
  List.inj_on_of_nodup_map h hs ht he

/-! ### Pruning pass as a filter -/

theorem not_mem_names_deleteSection {doc : IniFile} (h : NamesUnique doc)
    (n : String) : n ∉ (deleteSection doc n).map Section.name := by
  rw [deleteSection_eq_filter h]
  intro hmem
  obtain ⟨s, hs, hsn⟩ := List.mem_map.mp hmem
  have := (List.mem_filter.mp hs).2
  simp only [Bool.not_eq_true', beq_eq_false_iff_ne, ne_eq] at this
  exact this hsn

theorem deleteSection_deleteSection {doc : IniFile} (h : NamesUnique doc)
    (n : String) :
    deleteSection (deleteSection doc n) n = deleteSection doc n :=
  deleteSection_of_not_mem (not_mem_names_deleteSection h n)

theorem pruneStep_eq {d : IniFile} (hd : NamesUnique d) (sec : Section)
    (urls : List String) :
    pruneStep d sec urls =
      if pruneMatch sec urls then deleteSection d sec.name else d := by
  induction urls generalizing d with
  | nil => simp [pruneStep, pruneMatch]
  | cons u us ih =>
    rw [pruneStep, List.foldl_cons]
    have hstep : ∀ d' : IniFile, (us.foldl
        (fun d2 pruneURL =>
          if hasKey sec markerKey && sectionStartURL sec == pruneURL
          then deleteSection d2 sec.name else d2) d') = pruneStep d' sec us :=
      fun _ => rfl
    by_cases hc : (hasKey sec markerKey && sectionStartURL sec == u) = true
    · rw [if_pos hc, hstep, ih (namesUnique_deleteSection hd sec.name)]
      have hpm : pruneMatch sec (u :: us) = true := by
        simp only [pruneMatch, List.any_cons]
        simp only [Bool.and_eq_true] at hc
        simp [hc.1, hc.2]
      rw [if_pos hpm]
      by_cases hus : pruneMatch sec us = true
      · rw [if_pos hus, deleteSection_deleteSection hd]
      · rw [if_neg hus]
    · rw [if_neg hc, hstep, ih hd]
      simp only [Bool.and_eq_true, not_and, Bool.not_eq_true] at hc
      have hpm : pruneMatch sec (u :: us) = pruneMatch sec us := by
        simp only [pruneMatch, List.any_cons]
        by_cases hm : hasKey sec markerKey = true
        · rw [hc hm]
          simp
        · simp only [Bool.not_eq_true] at hm
          rw [hm]
          simp
      rw [hpm]

theorem pruneFold_eq {doc : IniFile} (hdoc : NamesUnique doc)
    (urls : List String) :
    ∀ (l d : IniFile), d.Sublist doc →
    l.foldl (fun d2 sec => pruneStep d2 sec urls) d
      = d.filter
          (fun s => !(l.any (fun sec => pruneMatch sec urls && sec.name == s.name))) := by
  intro l
  induction l with
  | nil =>
    intro d _
    simp
  | cons sec l ih =>
    intro d hsub
    have hd : NamesUnique d := namesUnique_sublist hsub hdoc
    rw [List.foldl_cons, pruneStep_eq hd]
    by_cases hpm : pruneMatch sec urls = true
    · rw [if_pos hpm,
        ih (deleteSection d sec.name) ((deleteSection_sublist d sec.name).trans hsub),
        deleteSection_eq_filter hd, List.filter_filter]
      apply List.filter_congr
      intro s _
      have hsymm : (s.name == sec.name) = (sec.name == s.name) := by
        by_cases h : s.name = sec.name
        · simp [h]
        · simp [h, Ne.symm h]
      rw [List.any_cons, hpm, Bool.true_and, Bool.not_or, hsymm, Bool.and_comm]
    · rw [if_neg hpm, ih d hsub]
      apply List.filter_congr
      intro s _
      rw [List.any_cons, Bool.not_eq_true] at *
      rw [hpm, Bool.false_and, Bool.false_or]

/-- Under the ini invariant of unique section names, the pruning pass is
exactly a filter: it removes precisely the sections that carry the
generated-origin marker key and whose recorded start URL is one of the
prune start URLs, and it touches nothing else. -/
theorem prunePass_eq_filter {doc : IniFile} (hdoc : NamesUnique doc)
    (urls : List String) :
    prunePass doc urls = doc.filter (fun s => !(pruneMatch s urls)) := by
  rw [prunePass, pruneFold_eq hdoc urls doc doc (List.Sublist.refl doc)]
  apply List.filter_congr
  intro s hs
  congr 1
  by_cases hps : pruneMatch s urls = true
  · rw [hps]
    rw [List.any_eq_true]
    exact ⟨s, hs, by simp [hps]⟩
  · rw [Bool.not_eq_true] at hps
    rw [hps]
    rw [List.any_eq_false]
    intro sec hsec
    simp only [Bool.and_eq_true, beq_iff_eq, not_and]
    intro hpm2 hname
    have := name_inj_of_namesUnique hdoc hsec hs hname
    rw [this] at hpm2
    rw [hpm2] at hps
    cases hps

/-! ### Insertion pass as a fold of a total step function

On a run where every template execution succeeds, `insertLoop` agrees with
a fold of the total step function `stepTot`; the lemmas below work with the
fold. -/

theorem insertLoop_eq_foldl {τ : Type} (exec : τ → SSOProfile → Option String)
    (t : τ) (pfx : String) (nc : Bool) {ps : List SSOProfile}
    (hexec : ∀ p ∈ ps, (exec t (normalizeProfile p)).isSome = true) :
    ∀ doc : IniFile, insertLoop exec t pfx nc doc ps
      = (ps.foldl (stepTot exec t pfx nc) doc, none) := by
  induction ps with
  | nil => intro doc; rfl
  | cons p ps ih =>
    intro doc
    obtain ⟨frag, hfrag⟩ :=
      Option.isSome_iff_exists.mp (hexec p (List.mem_cons_self p ps))
    rw [insertLoop]
    simp only [hfrag]
    rw [ih (fun q hq => hexec q (List.mem_cons_of_mem p hq)), List.foldl_cons]
    congr 2
    simp [stepTot, nmOf, secOf, fragOf, hfrag]

theorem insertLoop_err_none {τ : Type} {exec : τ → SSOProfile → Option String}
    {t : τ} {pfx : String} {nc : Bool} {ps : List SSOProfile} {doc : IniFile}
    (h : (insertLoop exec t pfx nc doc ps).snd = none) :
    ∀ p ∈ ps, (exec t (normalizeProfile p)).isSome = true := by
  induction ps generalizing doc with
  | nil => intro p hp; cases hp
  | cons p ps ih =>
    intro q hq
    rw [insertLoop] at h
    cases hfrag : exec t (normalizeProfile p) with
    | none => rw [hfrag] at h; cases h
    | some frag =>
      rw [hfrag] at h
      rcases List.mem_cons.mp hq with hq | hq
      · rw [hq, hfrag]; rfl
      · exact ih h q hq

theorem namesUnique_stepTot {τ : Type} {exec : τ → SSOProfile → Option String}
    {t : τ} {pfx : String} {nc : Bool} {d : IniFile} (hd : NamesUnique d)
    (p : SSOProfile) : NamesUnique (stepTot exec t pfx nc d p) := by
  rw [stepTot, NamesUnique, List.map_append]
  rw [List.nodup_append_comm]
  rw [List.map_singleton, List.singleton_append, List.nodup_cons]
  exact ⟨not_mem_names_deleteSection hd _, namesUnique_deleteSection hd _⟩

theorem namesUnique_foldl_stepTot {τ : Type}
    {exec : τ → SSOProfile → Option String} {t : τ} {pfx : String} {nc : Bool}
    {d : IniFile} (hd : NamesUnique d) (ps : List SSOProfile) :
    NamesUnique (ps.foldl (stepTot exec t pfx nc) d) := by
  induction ps generalizing d with
  | nil => exact hd
  | cons p ps ih => exact ih (namesUnique_stepTot hd p)

theorem mem_foldl_stepTot {τ : Type} {exec : τ → SSOProfile → Option String}
    {t : τ} {pfx : String} {nc : Bool} {ps : List SSOProfile} {d : IniFile}
    {s : Section} (h : s ∈ ps.foldl (stepTot exec t pfx nc) d) :
    s ∈ d ∨ ∃ p ∈ ps, s = secOf exec t pfx nc p := by
  induction ps generalizing d with
  | nil => exact Or.inl h
  | cons p ps ih =>
    rw [List.foldl_cons] at h
    rcases ih h with hmem | ⟨q, hq, hs⟩
    · rw [stepTot] at hmem
      rcases List.mem_append.mp hmem with hmem | hmem
      · exact Or.inl ((deleteSection_sublist d _).mem hmem)
      · exact Or.inr ⟨p, List.mem_cons_self p ps, List.mem_singleton.mp hmem⟩
    · exact Or.inr ⟨q, List.mem_cons_of_mem p hq, hs⟩

/-- Decomposition of the insertion fold: starting from any document with
unique section names, the result is the sections of the start document
whose names are not among the rendered section names, in their original
order, followed by the sections the fold would create from the empty
document. -/
theorem foldl_stepTot_decomp {τ : Type} (exec : τ → SSOProfile → Option String)
    (t : τ) (pfx : String) (nc : Bool) (ps : List SSOProfile) :
    ∀ {d : IniFile}, NamesUnique d →
    ps.foldl (stepTot exec t pfx nc) d
      = d.filter (fun s => !(ps.any (fun p => nmOf exec t pfx p == s.name)))
        ++ ps.foldl (stepTot exec t pfx nc) [] := by
  induction ps with
  | nil =>
    intro d _
    simp
  | cons p ps ih =>
    intro d hd
    rw [List.foldl_cons, ih (namesUnique_stepTot hd p)]
    rw [List.foldl_cons (f := stepTot exec t pfx nc) (b := [])]
    have hsingle : NamesUnique (stepTot exec t pfx nc [] p) :=
      namesUnique_stepTot (by simp [NamesUnique]) p
    rw [ih hsingle]
    have hstep0 : stepTot exec t pfx nc [] p = [secOf exec t pfx nc p] := rfl
    rw [hstep0]
    conv_lhs => rw [stepTot, List.filter_append]
    rw [List.append_assoc]
    congr 1
    rw [deleteSection_eq_filter hd, List.filter_filter]
    apply List.filter_congr
    intro s _
    have hsymm : (s.name == nmOf exec t pfx p) = (nmOf exec t pfx p == s.name) := by
      by_cases h : s.name = nmOf exec t pfx p
      · simp [h]
      · simp [h, Ne.symm h]
    rw [List.any_cons, Bool.not_or, hsymm, Bool.and_comm]

theorem filter_comm_bool {α : Type} (l : List α) (p q : α → Bool) :
    (l.filter p).filter q = (l.filter q).filter p := by
  rw [List.filter_filter, List.filter_filter]
  exact List.filter_congr (fun a _ => Bool.and_comm (q a) (p a))

theorem filter_idem_bool {α : Type} (l : List α) (p : α → Bool) :
    (l.filter p).filter p = l.filter p := by
  rw [List.filter_filter]
  exact List.filter_congr (fun a _ => Bool.and_self (p a))

/-- Core of idempotence: pruning then inserting a fixed profile list is an
idempotent transformation of a unique-names document.  The second prune
removes (from the sections the first pass wrote) exactly those that the
second insertion pass recreates, and the remainder is untouched. -/
theorem prune_insert_idem {τ : Type} {exec : τ → SSOProfile → Option String}
    {t : τ} {pfx : String} {nc : Bool} (urls : List String)
    {d0 : IniFile} (hU : NamesUnique d0) (ps : List SSOProfile) :
    ps.foldl (stepTot exec t pfx nc)
        (prunePass (ps.foldl (stepTot exec t pfx nc) (prunePass d0 urls)) urls)
      = ps.foldl (stepTot exec t pfx nc) (prunePass d0 urls) := by
  have hpmD0 : prunePass d0 urls = d0.filter (fun s => !(pruneMatch s urls)) :=
    prunePass_eq_filter hU urls
  have hUD0 : NamesUnique (prunePass d0 urls) := by
    rw [hpmD0]; exact namesUnique_filter hU _
  have hUdoc1 : NamesUnique (ps.foldl (stepTot exec t pfx nc) (prunePass d0 urls)) :=
    namesUnique_foldl_stepTot hUD0 ps
  have hdoc1 := foldl_stepTot_decomp exec t pfx nc ps hUD0
  have hpm1 := prunePass_eq_filter hUdoc1 urls
  rw [hpm1]
  rw [foldl_stepTot_decomp exec t pfx nc ps (namesUnique_filter hUdoc1 _)]
  conv_lhs =>
    rw [hdoc1, hpmD0, List.filter_append, List.filter_append]
  have hGnil : ((ps.foldl (stepTot exec t pfx nc) []).filter
        (fun s => !(pruneMatch s urls))).filter
        (fun s => !(ps.any (fun p => nmOf exec t pfx p == s.name))) = [] := by
    rw [List.filter_eq_nil_iff]
    intro a ha
    have haG : a ∈ ps.foldl (stepTot exec t pfx nc) [] := (List.mem_filter.mp ha).1
    rcases mem_foldl_stepTot haG with h | ⟨p, hp, hap⟩
    · cases h
    · have : (ps.any (fun q => nmOf exec t pfx q == a.name)) = true := by
        rw [List.any_eq_true]
        exact ⟨p, hp, by rw [hap]; exact beq_self_eq_true _⟩
      simp [this]
  have hcomm : (((d0.filter (fun s => !(pruneMatch s urls))).filter
        (fun s => !(ps.any (fun p => nmOf exec t pfx p == s.name)))).filter
        (fun s => !(pruneMatch s urls)))
      = (d0.filter (fun s => !(pruneMatch s urls))).filter
        (fun s => !(ps.any (fun p => nmOf exec t pfx p == s.name))) := by
    rw [filter_comm_bool (d0.filter _), filter_idem_bool]
  rw [hcomm, hGnil]
  simp only [List.append_assoc, List.nil_append, List.append_nil]
  rw [filter_idem_bool, hdoc1, hpmD0]

theorem foldl_stepTot_eq_append_map {τ : Type}
    {exec : τ → SSOProfile → Option String} {t : τ} {pfx : String} {nc : Bool}
    (ps : List SSOProfile) :
    ∀ {d : IniFile}, NamesUnique d →
    (∀ p ∈ ps, nmOf exec t pfx p ∉ d.map Section.name) →
    (ps.map (nmOf exec t pfx)).Nodup →
    ps.foldl (stepTot exec t pfx nc) d = d ++ ps.map (secOf exec t pfx nc) := by
  induction ps with
  | nil =>
    intro d _ _ _
    simp
  | cons p ps ih =>
    intro d hd hfresh hnodup
    rw [List.foldl_cons]
    have hstep : stepTot exec t pfx nc d p = d ++ [secOf exec t pfx nc p] := by
      rw [stepTot, deleteSection_of_not_mem (hfresh p (List.mem_cons_self p ps))]
    rw [hstep]
    rw [List.map_cons, List.nodup_cons] at hnodup
    have hd2 : NamesUnique (d ++ [secOf exec t pfx nc p]) := by
      rw [NamesUnique, List.map_append, List.nodup_append_comm,
        List.map_singleton, List.singleton_append, List.nodup_cons]
      exact ⟨hfresh p (List.mem_cons_self p ps), hd⟩
    have hfresh2 : ∀ q ∈ ps,
        nmOf exec t pfx q ∉ (d ++ [secOf exec t pfx nc p]).map Section.name := by
      intro q hq
      rw [List.map_append, List.mem_append]
      rintro (hmem | hmem)
      · exact hfresh q (List.mem_cons_of_mem p hq) hmem
      · rw [List.map_singleton, List.mem_singleton] at hmem
        have hmem2 : nmOf exec t pfx q = nmOf exec t pfx p := hmem
        exact hnodup.1 (hmem2 ▸ List.mem_map_of_mem (nmOf exec t pfx) hq)
    rw [ih hd2 hfresh2 hnodup.2, List.append_assoc, List.singleton_append,
      ← List.map_cons]

/-- `Merge` on a successfully parsed template, spelled out. -/
theorem merge_eq_of_parse_some {τ : Type} (parse : String → Option τ)
    (exec : τ → SSOProfile → Option String) (opts : MergeOpts) {t : τ}
    (hp : parse (effectiveTemplate opts.sectionNameTemplate) = some t) :
    Merge parse exec opts =
      ⟨(insertLoop exec t opts.pfx opts.noCredentialProcess
          (prunePass opts.config opts.pruneStartURLs)
          (sortProfiles opts.profiles)).fst,
       (insertLoop exec t opts.pfx opts.noCredentialProcess
          (prunePass opts.config opts.pruneStartURLs)
          (sortProfiles opts.profiles)).snd,
       sortProfiles opts.profiles⟩ := by
  rw [Merge, hp]

/-- `Merge` on a template that fails to parse, spelled out. -/
theorem merge_eq_of_parse_none {τ : Type} (parse : String → Option τ)
    (exec : τ → SSOProfile → Option String) (opts : MergeOpts)
    (hp : parse (effectiveTemplate opts.sectionNameTemplate) = none) :
    Merge parse exec opts =
      ⟨opts.config, some .templateParseError, sortProfiles opts.profiles⟩ := by
  rw [Merge, hp]

theorem collectSources_error {sources : List (Except String (List SSOProfile))}
    (h : ∃ e, Except.error e ∈ sources) :
    ∃ e, Except.error e ∈ sources ∧ collectSources sources = .error e := by
  induction sources with
  | nil => obtain ⟨e, he⟩ := h; cases he
  | cons src rest ih =>
    cases src with
    | error e => exact ⟨e, List.mem_cons_self _ _, rfl⟩
    | ok ps =>
      obtain ⟨e, he⟩ := h
      have herest : ∃ e2, Except.error e2 ∈ rest := by
        rcases List.mem_cons.mp he with h1 | h1
        · cases h1
        · exact ⟨e, h1⟩
      obtain ⟨e2, he2, hc⟩ := ih herest
      refine ⟨e2, List.mem_cons_of_mem _ he2, ?_⟩
      rw [collectSources, hc]

theorem deleteSection_append_of_not_mem_right {gen : IniFile} {n : String}
    (hn : n ∉ gen.map Section.name) (d0 : IniFile) :
    deleteSection (d0 ++ gen) n = deleteSection d0 n ++ gen := by
  induction d0 with
  | nil =>
    rw [List.nil_append, deleteSection, List.nil_append]
    exact deleteSection_of_not_mem hn
  | cons s d0 ih =>
    rw [List.cons_append, deleteSection, deleteSection]
    by_cases h : (s.name == n) = true
    · rw [if_pos h, if_pos h]
    · rw [if_neg h, if_neg h, List.cons_append, ih]

/-- Shape of the insertion fold over any start document, without any
uniqueness assumption on the document: when the rendered section names of
the profiles are pairwise distinct, the result is the start document with
some sections deleted, followed by the generated sections in profile-list
order. -/
theorem foldl_stepTot_tail {τ : Type} (exec : τ → SSOProfile → Option String)
    (t : τ) (pfx : String) (nc : Bool) (ps : List SSOProfile)
    (hnodup : (ps.map (nmOf exec t pfx)).Nodup) :
    ∀ (d0 gen : IniFile), (∀ q ∈ ps, nmOf exec t pfx q ∉ gen.map Section.name) →
    ps.foldl (stepTot exec t pfx nc) (d0 ++ gen)
      = ps.foldl (fun d q => deleteSection d (nmOf exec t pfx q)) d0
          ++ gen ++ ps.map (secOf exec t pfx nc) := by
  induction ps with
  | nil =>
    intro d0 gen _
    simp
  | cons p ps ih =>
    intro d0 gen hfresh
    rw [List.map_cons, List.nodup_cons] at hnodup
    rw [List.foldl_cons]
    have hstep : stepTot exec t pfx nc (d0 ++ gen) p
        = deleteSection d0 (nmOf exec t pfx p)
            ++ (gen ++ [secOf exec t pfx nc p]) := by
      rw [stepTot,
        deleteSection_append_of_not_mem_right (hfresh p (List.mem_cons_self p ps)),
        List.append_assoc]
    rw [hstep]
    have hfresh2 : ∀ q ∈ ps, nmOf exec t pfx q
        ∉ (gen ++ [secOf exec t pfx nc p]).map Section.name := by
      intro q hq
      rw [List.map_append, List.mem_append]
      rintro (hmem | hmem)
      · exact hfresh q (List.mem_cons_of_mem p hq) hmem
      · rw [List.map_singleton, List.mem_singleton] at hmem
        have hmem2 : nmOf exec t pfx q = nmOf exec t pfx p := hmem
        exact hnodup.1 (hmem2 ▸ List.mem_map_of_mem (nmOf exec t pfx) hq)
    rw [ih hnodup.2 (deleteSection d0 (nmOf exec t pfx p))
      (gen ++ [secOf exec t pfx nc p]) hfresh2]
    rw [List.foldl_cons, List.map_cons]
    simp [List.append_assoc]

/-! ### Claim theorems -/

/-- C6: for every profile written in credential-helper style (flag false),
the emitted `credential_process` value is exactly
`granted credential-process --profile <fully-qualified-name>` when the
companion URL is empty, and exactly that string suffixed with
` --url <companion URL>` when the companion URL is non-empty. -/
theorem toIni_credential_process_value (p : SSOProfile)
    (profileName n : String) :
    keyValue ⟨n, p.toIni profileName false⟩ "credential_process" =
      if p.commonFateURL != ""
      then "granted credential-process --profile " ++ profileName
             ++ " --url " ++ p.commonFateURL
      else "granted credential-process --profile " ++ profileName := by
  have h1 : keyValue ⟨n, p.toIni profileName false⟩ "credential_process"
      = credProcessValue p profileName := rfl
  rw [h1]
  simp only [credProcessValue]

/-- C7: the section written for a profile contains exactly the fixed
ordered key set of its style — native style (flag true):
`sso_start_url`, `sso_region`, `sso_account_id`,
`common_fate_generated_from`, `sso_role_name`, then `region` only when
non-empty, with no `credential_process` key; credential-helper style
(flag false): `granted_sso_start_url`, `granted_sso_region`,
`granted_sso_account_id`, `granted_sso_role_name`,
`common_fate_generated_from`, `credential_process`, then `region` only
when non-empty. -/
theorem toIni_fixed_key_order (p : SSOProfile) (profileName : String) :
    ((p.toIni profileName true).map Prod.fst =
      ["sso_start_url", "sso_region", "sso_account_id",
       "common_fate_generated_from", "sso_role_name"]
        ++ (if p.region != "" then ["region"] else []))
    ∧ ((p.toIni profileName false).map Prod.fst =
      ["granted_sso_start_url", "granted_sso_region",
       "granted_sso_account_id", "granted_sso_role_name",
       "common_fate_generated_from", "credential_process"]
        ++ (if p.region != "" then ["region"] else [])) := by
  constructor <;>
    · by_cases hr : (p.region != "") = true
      · simp [SSOProfile.toIni, hr]
      · rw [Bool.not_eq_true] at hr
        simp [SSOProfile.toIni, hr]

/-- C8: when the effective naming template fails to parse, `Merge` returns
an error and leaves the document with no mutation at all. -/
theorem merge_parse_failure_no_mutation {τ : Type} (parse : String → Option τ)
    (exec : τ → SSOProfile → Option String) (opts : MergeOpts)
    (hp : parse (effectiveTemplate opts.sectionNameTemplate) = none) :
    (Merge parse exec opts).doc = opts.config
    ∧ (Merge parse exec opts).err = some .templateParseError := by
  rw [merge_eq_of_parse_none parse exec opts hp]
  exact ⟨rfl, rfl⟩

/-- C9 (amended): `Merge` sorts the caller's profile slice in place, so the
element found at a given index may change observably; what holds is that
the slice after `Merge` is a permutation of the original list — every
element is one of the caller's original profiles, unchanged in every field
(display-name normalization happens on a per-iteration copy). -/
theorem merge_profiles_permuted_not_mutated {τ : Type}
    (parse : String → Option τ) (exec : τ → SSOProfile → Option String)
    (opts : MergeOpts) :
    ((Merge parse exec opts).profilesAfter).Perm opts.profiles := by
  cases hp : parse (effectiveTemplate opts.sectionNameTemplate) with
  | none =>
    rw [merge_eq_of_parse_none parse exec opts hp]
    exact List.perm_insertionSort profileLe opts.profiles
  | some t =>
    rw [merge_eq_of_parse_some parse exec opts hp]
    exact List.perm_insertionSort profileLe opts.profiles

/-- C9 (counterexample): after `Merge`, the first element of the caller's
profile slice differs from the first element originally supplied — the
in-place `sort.SliceStable` is observable outside the call, so the caller's
slice elements are not positionally unchanged. -/
theorem merge_profiles_reordered_counterexample :
    (Merge okParse defaultTemplateExec unsortedOpts).profilesAfter.head?
      ≠ unsortedOpts.profiles.head? := by decide

/-- C3: the pruning pass deletes a section only if it carries the
generated-origin marker key and its recorded start URL equals one of the
prune URLs; a section lacking the marker key is never removed, whatever its
other fields contain; and a prune URL matching no marked section is a
no-op. -/
theorem prune_deletes_only_marked_matching (doc : IniFile)
    (urls : List String) (hU : NamesUnique doc) :
    (∀ s ∈ doc, s ∉ prunePass doc urls →
      hasKey s markerKey = true
        ∧ urls.any (fun u => sectionStartURL s == u) = true)
    ∧ (∀ s ∈ doc, hasKey s markerKey = false → s ∈ prunePass doc urls)
    ∧ (∀ u, (∀ s ∈ doc, hasKey s markerKey = true → ¬(sectionStartURL s = u)) →
        prunePass doc (u :: urls) = prunePass doc urls) := by
  refine ⟨?_, ?_, ?_⟩
  · intro s hs hnot
    by_contra hc
    apply hnot
    rw [prunePass_eq_filter hU, List.mem_filter]
    refine ⟨hs, ?_⟩
    have hpm : pruneMatch s urls = false := by
      rw [← Bool.not_eq_true, pruneMatch, Bool.and_eq_true]
      exact hc
    rw [hpm]
    rfl
  · intro s hs hm
    rw [prunePass_eq_filter hU, List.mem_filter]
    refine ⟨hs, ?_⟩
    rw [pruneMatch, hm]
    rfl
  · intro u hu
    rw [prunePass_eq_filter hU, prunePass_eq_filter hU]
    apply List.filter_congr
    intro s hs
    congr 1
    rw [pruneMatch, pruneMatch, List.any_cons]
    by_cases hm : hasKey s markerKey = true
    · have : (sectionStartURL s == u) = false := by
        rw [beq_eq_false_iff_ne]
        exact hu s hs hm
      rw [this, Bool.false_or]
    · rw [Bool.not_eq_true] at hm
      rw [hm, Bool.false_and, Bool.false_and]

/-- C10: the pruning pass recognizes a generated section solely by the
presence of the `common_fate_generated_from` key, ignoring its value: every
section carrying that key — whatever its value, including the empty
string — is deleted whenever its recorded start URL equals one of the
prune URLs. -/
theorem prune_marker_presence_suffices (doc : IniFile) (urls : List String)
    (hU : NamesUnique doc) :
    ∀ s ∈ doc, hasKey s markerKey = true →
      urls.any (fun u => sectionStartURL s == u) = true →
      s ∉ prunePass doc urls := by
  intro s hs hm ha hmem
  rw [prunePass_eq_filter hU, List.mem_filter] at hmem
  have hpm : pruneMatch s urls = true := by
    rw [pruneMatch, hm, ha]
    rfl
  rw [hpm] at hmem
  exact absurd hmem.2 (by simp)

/-- C1: for every configuration document (with the ini library's invariant
of unique section names), profile list and options for which `Merge`
succeeds, running `Merge` again with the identical profile list and options
on the resulting document succeeds and yields that document unchanged —
`Merge` is idempotent. -/
theorem merge_idempotent {τ : Type} (parse : String → Option τ)
    (exec : τ → SSOProfile → Option String) (opts : MergeOpts)
    (hU : NamesUnique opts.config)
    (herr : (Merge parse exec opts).err = none) :
    (Merge parse exec { opts with config := (Merge parse exec opts).doc }).doc
      = (Merge parse exec opts).doc
    ∧ (Merge parse exec { opts with config := (Merge parse exec opts).doc }).err
      = none := by
  cases hp : parse (effectiveTemplate opts.sectionNameTemplate) with
  | none =>
    rw [merge_eq_of_parse_none parse exec opts hp] at herr
    exact absurd herr (by simp)
  | some t =>
    have hm1 := merge_eq_of_parse_some parse exec opts hp
    rw [hm1] at herr
    have herr2 : (insertLoop exec t opts.pfx opts.noCredentialProcess
        (prunePass opts.config opts.pruneStartURLs)
        (sortProfiles opts.profiles)).snd = none := herr
    have hexec := insertLoop_err_none herr2
    have hp2 : parse (effectiveTemplate
        ({ opts with config := (Merge parse exec opts).doc }
          : MergeOpts).sectionNameTemplate) = some t := hp
    have hm2 := merge_eq_of_parse_some parse exec
      { opts with config := (Merge parse exec opts).doc } hp2
    have hfold := insertLoop_eq_foldl exec t opts.pfx
      opts.noCredentialProcess hexec
    have e1 : (Merge parse exec opts).doc
        = List.foldl (stepTot exec t opts.pfx opts.noCredentialProcess)
            (prunePass opts.config opts.pruneStartURLs)
            (sortProfiles opts.profiles) := by
      rw [hm1, hfold]
    have e2 : (Merge parse exec
        { opts with config := (Merge parse exec opts).doc }).doc
        = List.foldl (stepTot exec t opts.pfx opts.noCredentialProcess)
            (prunePass (Merge parse exec opts).doc opts.pruneStartURLs)
            (sortProfiles opts.profiles) := by
      rw [hm2]
      dsimp only
      rw [hfold]
    have e3 : (Merge parse exec
        { opts with config := (Merge parse exec opts).doc }).err = none := by
      rw [hm2]
      dsimp only
      rw [hfold]
    refine ⟨?_, e3⟩
    rw [e2, e1, prune_insert_idem opts.pruneStartURLs hU (sortProfiles opts.profiles)]

/-- C2 (amended): the sections `Merge` creates in one call are emitted, at
the end of the document, in ascending order of the combined string
`AccountName ++ "/" ++ RoleName` under Go's byte-lexicographic string
order — not of the pair (account display name, role name) — regardless of
the order in which the profiles were supplied (stated for a run in which
the template parses, every profile renders, and the rendered section names
are pairwise distinct). -/
theorem merge_emits_sections_in_combined_name_order {τ : Type}
    (parse : String → Option τ) (exec : τ → SSOProfile → Option String)
    (opts : MergeOpts) (t : τ)
    (hp : parse (effectiveTemplate opts.sectionNameTemplate) = some t)
    (herr : (Merge parse exec opts).err = none)
    (hnodup : ((sortProfiles opts.profiles).map
      (nmOf exec t opts.pfx)).Nodup) :
    (Merge parse exec opts).doc
      = ((sortProfiles opts.profiles).foldl
            (fun d q => deleteSection d (nmOf exec t opts.pfx q))
            (prunePass opts.config opts.pruneStartURLs))
        ++ (sortProfiles opts.profiles).map
            (secOf exec t opts.pfx opts.noCredentialProcess)
    ∧ (sortProfiles opts.profiles).Pairwise profileLe
    ∧ (sortProfiles opts.profiles).Perm opts.profiles := by
  have hm1 := merge_eq_of_parse_some parse exec opts hp
  rw [hm1] at herr
  have herr2 : (insertLoop exec t opts.pfx opts.noCredentialProcess
      (prunePass opts.config opts.pruneStartURLs)
      (sortProfiles opts.profiles)).snd = none := herr
  have hexec := insertLoop_err_none herr2
  refine ⟨?_, List.sorted_insertionSort profileLe opts.profiles,
    List.perm_insertionSort profileLe opts.profiles⟩
  have hfold := insertLoop_eq_foldl exec t opts.pfx
    opts.noCredentialProcess hexec
  have htail := foldl_stepTot_tail exec t opts.pfx opts.noCredentialProcess
    (sortProfiles opts.profiles) hnodup
    (prunePass opts.config opts.pruneStartURLs) [] (by simp)
  rw [List.append_nil, List.append_nil] at htail
  rw [hm1, hfold]
  exact htail

/-- C2 (counterexample): with account names `a` (role `!b`) and `a!`
(role `b`), the profile that is strictly smaller in the pair order
(account display name, role name) has its section emitted second, because
`Merge` sorts by the combined string `AccountName ++ "/" ++ RoleName` and
`"a!/b" < "a/!b"` in Go string order while `("a", "!b") < ("a!", "b")` as
pairs. -/
theorem merge_pair_order_counterexample :
    pairLt pairLesserProfile pairGreaterProfile = true
    ∧ nmOf defaultTemplateExec () "" pairGreaterProfile = "profile a!/b"
    ∧ nmOf defaultTemplateExec () "" pairLesserProfile = "profile a/!b"
    ∧ (Merge okParse defaultTemplateExec pairOrderOpts).doc.map Section.name
        = ["profile a!/b", "profile a/!b"] := by decide

/-- C4: when at least one source fails (and the prefix and template
pre-checks pass, so that the sources are actually queried), `Generate`
returns an error originating from a failing source and the configuration
document is left completely unmodified. -/
theorem generate_fails_fast_on_source_error {τ : Type}
    (parse : String → Option τ) (exec : τ → SSOProfile → Option String)
    (g : GeneratorOpts) (sources : List (Except String (List SSOProfile)))
    (hpfx : containsIllegalPrefixChar g.pfx = false)
    (htmpl : (effectiveTemplate g.profileNameTemplate != DefaultProfileNameTemplate
      && templateRejected (effectiveTemplate g.profileNameTemplate)) = false)
    (hfail : ∃ e, Except.error e ∈ sources) :
    ∃ e, Except.error e ∈ sources
      ∧ Generate parse exec g sources = (g.config, some (.sourceError e)) := by
  obtain ⟨e, he, hc⟩ := collectSources_error hfail
  refine ⟨e, he, ?_⟩
  rw [Generate, if_neg (by rw [hpfx]; exact Bool.false_ne_true)]
  simp only [htmpl, Bool.false_eq_true, if_false, hc]

/-- C5 (amended): a non-default naming template whose text, after removal
of the embedded `\x7b\x7b \x7d\x7d` regions, is matched by the
illegal-character regular expression — that is, some illegal character
(space, `]`, `[`, `;`, `'`, `"`) occurs at the start or not immediately
after `\x7b`, or some non-whitespace illegal character occurs without a
closing `\x7d` right after it — makes `Generate` return an error before
invoking any source, leaving the document unmodified.  (An occurrence
guarded by surrounding braces escapes the check; see the
counterexample.) -/
theorem generate_template_precheck_matches_regex {τ : Type}
    (parse : String → Option τ) (exec : τ → SSOProfile → Option String)
    (g : GeneratorOpts) (sources : List (Except String (List SSOProfile)))
    (h1 : (effectiveTemplate g.profileNameTemplate
      != DefaultProfileNameTemplate) = true)
    (h2 : templateRejected (effectiveTemplate g.profileNameTemplate) = true) :
    (∃ e, (e = GoError.illegalPrefixError ∨ e = GoError.illegalTemplateError)
      ∧ Generate parse exec g sources = (g.config, some e))
    ∧ (∀ sources2, Generate parse exec g sources2
        = Generate parse exec g sources) := by
  by_cases hpfx : containsIllegalPrefixChar g.pfx = true
  · refine ⟨⟨.illegalPrefixError, Or.inl rfl, ?_⟩, ?_⟩
    · rw [Generate, if_pos hpfx]
    · intro s2
      rw [Generate, if_pos hpfx, Generate, if_pos hpfx]
  · refine ⟨⟨.illegalTemplateError, Or.inr rfl, ?_⟩, ?_⟩
    · rw [Generate, if_neg hpfx]
      simp only [h1, h2, Bool.and_self, if_true]
    · intro s2
      rw [Generate, if_neg hpfx, Generate, if_neg hpfx]
      simp only [h1, h2, Bool.and_self, if_true]

/-- C5 (counterexample): the non-default template `\x7b]\x7d` contains the
illegal character `]` in its text after template-region removal (it has no
regions), yet `Generate` accepts it: the sources are queried, no error is
returned, and the document is modified — because the regex only flags an
illegal character when it is not brace-guarded. -/
theorem generate_template_precheck_counterexample :
    ("\x7b]\x7d" : String) ≠ DefaultProfileNameTemplate
    ∧ ']' ∈ stripTemplates ("\x7b]\x7d" : String).data
    ∧ (Generate okParse literalBracketExec bracketTemplateGenOpts
        [Except.ok [testProfile]]).snd = none
    ∧ (Generate okParse literalBracketExec bracketTemplateGenOpts
        [Except.ok [testProfile]]).fst ≠ bracketTemplateGenOpts.config := by
  decide

/-! ### Witnesses -/

/-- C1 witness: idempotence instantiated at the `"ok"` test input with
pruning of the profile's own start URL enabled. -/
theorem merge_idempotent_witness :
    NamesUnique testMergeOpts.config
    ∧ (Merge okParse defaultTemplateExec testMergeOpts).err = none
    ∧ ((Merge okParse defaultTemplateExec
          { testMergeOpts with
              config := (Merge okParse defaultTemplateExec testMergeOpts).doc }).doc
        = (Merge okParse defaultTemplateExec testMergeOpts).doc
      ∧ (Merge okParse defaultTemplateExec
          { testMergeOpts with
              config := (Merge okParse defaultTemplateExec testMergeOpts).doc }).err
        = none) :=
  ⟨by decide, by decide,
   merge_idempotent okParse defaultTemplateExec testMergeOpts
     (by decide) (by decide)⟩

/-- C2 witness: the emission-order characterization instantiated at a
two-profile list supplied in descending order. -/
theorem merge_order_witness :
    okParse (effectiveTemplate unsortedOpts.sectionNameTemplate) = some ()
    ∧ (Merge okParse defaultTemplateExec unsortedOpts).err = none
    ∧ ((sortProfiles unsortedOpts.profiles).map
        (nmOf defaultTemplateExec () unsortedOpts.pfx)).Nodup
    ∧ ((Merge okParse defaultTemplateExec unsortedOpts).doc
        = ((sortProfiles unsortedOpts.profiles).foldl
              (fun d q =>
                deleteSection d (nmOf defaultTemplateExec () unsortedOpts.pfx q))
              (prunePass unsortedOpts.config unsortedOpts.pruneStartURLs))
          ++ (sortProfiles unsortedOpts.profiles).map
              (secOf defaultTemplateExec () unsortedOpts.pfx
                unsortedOpts.noCredentialProcess)
      ∧ (sortProfiles unsortedOpts.profiles).Pairwise profileLe
      ∧ (sortProfiles unsortedOpts.profiles).Perm unsortedOpts.profiles) :=
  ⟨rfl, by decide, by decide,
   merge_emits_sections_in_combined_name_order okParse defaultTemplateExec
     unsortedOpts () rfl (by decide) (by decide)⟩

/-- C3 witness: the pruning characterization instantiated at a document
with marked matching, unmarked matching, empty-marker matching and marked
non-matching sections. -/
theorem prune_deletes_only_marked_matching_witness :
    NamesUnique pruneProbeDoc
    ∧ ((∀ s ∈ pruneProbeDoc, s ∉ prunePass pruneProbeDoc ["u"] →
          hasKey s markerKey = true
            ∧ (["u"].any (fun u => sectionStartURL s == u)) = true)
      ∧ (∀ s ∈ pruneProbeDoc, hasKey s markerKey = false →
          s ∈ prunePass pruneProbeDoc ["u"])
      ∧ (∀ u, (∀ s ∈ pruneProbeDoc, hasKey s markerKey = true →
            ¬(sectionStartURL s = u)) →
          prunePass pruneProbeDoc (u :: ["u"]) = prunePass pruneProbeDoc ["u"])) :=
  ⟨by decide, prune_deletes_only_marked_matching pruneProbeDoc ["u"] (by decide)⟩

/-- C4 witness: fail-fast instantiated at one succeeding and one failing
source. -/
theorem generate_fails_fast_witness :
    containsIllegalPrefixChar testGenOpts.pfx = false
    ∧ (effectiveTemplate testGenOpts.profileNameTemplate
        != DefaultProfileNameTemplate
        && templateRejected (effectiveTemplate testGenOpts.profileNameTemplate))
        = false
    ∧ (∃ e, Except.error e ∈
        ([Except.ok [testProfile], Except.error "boom"]
          : List (Except String (List SSOProfile))))
    ∧ (∃ e2, Except.error e2 ∈
        ([Except.ok [testProfile], Except.error "boom"]
          : List (Except String (List SSOProfile)))
        ∧ Generate okParse defaultTemplateExec testGenOpts
            [Except.ok [testProfile], Except.error "boom"]
          = (testGenOpts.config, some (.sourceError e2))) :=
  ⟨by decide, by decide, ⟨"boom", by simp⟩,
   generate_fails_fast_on_source_error okParse defaultTemplateExec testGenOpts
     [Except.ok [testProfile], Except.error "boom"]
     (by decide) (by decide) ⟨"boom", by simp⟩⟩

/-- C5 witness: the pre-check rejection instantiated at the template
`"a b"`, whose space is not brace-guarded. -/
theorem generate_template_precheck_witness :
    (effectiveTemplate spaceTemplateGenOpts.profileNameTemplate
      != DefaultProfileNameTemplate) = true
    ∧ templateRejected (effectiveTemplate spaceTemplateGenOpts.profileNameTemplate)
        = true
    ∧ ((∃ e, (e = GoError.illegalPrefixError ∨ e = GoError.illegalTemplateError)
          ∧ Generate okParse defaultTemplateExec spaceTemplateGenOpts []
            = (spaceTemplateGenOpts.config, some e))
      ∧ (∀ sources2, Generate okParse defaultTemplateExec spaceTemplateGenOpts
            sources2
          = Generate okParse defaultTemplateExec spaceTemplateGenOpts [])) :=
  ⟨by decide, by decide,
   generate_template_precheck_matches_regex okParse defaultTemplateExec
     spaceTemplateGenOpts [] (by decide) (by decide)⟩

/-- C8 witness: a failing parse leaves the `"ok"` test document
unmodified. -/
theorem merge_parse_failure_witness :
    failParse (effectiveTemplate testMergeOpts.sectionNameTemplate) = none
    ∧ ((Merge failParse defaultTemplateExec testMergeOpts).doc
        = testMergeOpts.config
      ∧ (Merge failParse defaultTemplateExec testMergeOpts).err
        = some .templateParseError) :=
  ⟨rfl, merge_parse_failure_no_mutation failParse defaultTemplateExec
    testMergeOpts rfl⟩

/-- C10 witness: marker-presence pruning instantiated at the probe
document, whose section `profile c` carries the marker with an empty
value. -/
theorem prune_marker_presence_witness :
    NamesUnique pruneProbeDoc
    ∧ (∀ s ∈ pruneProbeDoc, hasKey s markerKey = true →
        (["u"].any (fun u => sectionStartURL s == u)) = true →
        s ∉ prunePass pruneProbeDoc ["u"]) :=
  ⟨by decide, prune_marker_presence_suffices pruneProbeDoc ["u"] (by decide)⟩

end AwsCfg
